import Mathlib

/-!
Verification of the snapkit-js core URL-building subsystem
(`packages/core/src`: `security-utils.ts`, `url-builder.ts`,
`url-builder-factory.ts`, the `LRUCache` class, `browser-compatibility.ts`,
`constants.ts`) against its natural-language specification.

The TypeScript sources are embedded shallowly:

* strings are `String` / `List Char` (JavaScript strings are modelled at the
  character level; every string this library manipulates in the verified
  claims is ASCII);
* JavaScript numbers that the library uses as integer-valued transform
  parameters are modelled as `Nat`, and the LRU constructor argument, where
  "non-positive" matters, as `Int`;
* thrown `Error` objects become an explicit `Except` with a `JsError`
  structure carrying the `name` and `message` fields the code sets;
* `URLSearchParams` serialization and the `application/x-www-form-urlencoded`
  percent-encoder it uses are modelled for code points below 128, which
  covers every string the library produces;
* the WHATWG `new URL(...)` constructor used by `isValidUrl` is modelled
  only to the extent the code observes it: scheme extraction (parse failure
  gives `none`, mirroring the `try/catch` returning `false`); everything
  after the parse follows the source line by line;
* regular-expression tests and replaces from the source are implemented as
  explicit character scans with JavaScript semantics (`\w` = `[A-Za-z0-9_]`,
  `\s` modelled on its ASCII members, case-insensitive flags via ASCII
  lowercasing, global replace as a left-to-right non-overlapping scan).

Recursive scans take an explicit fuel argument (initialised to the list
length, which every step strictly decreases) so that all definitions are
structural and evaluate by `decide`.
-/

/-! ## Character classes used by the source's regular expressions -/

/-- JavaScript control-character class `[\x00-\x1F\x7F]`. -/
def isCtlChar (c : Char) : Bool := c.toNat < 32 || c.toNat == 127

/-- JavaScript `\w` word-character class `[A-Za-z0-9_]`. -/
def isWordChar (c : Char) : Bool := c.isAlphanum || c = '_'

/-- JavaScript `\s` whitespace class, modelled on its ASCII members. -/
def isSpaceChar (c : Char) : Bool :=
  c = ' ' || c = '\t' || c = '\n' || c = '\r' || c.toNat == 11 || c.toNat == 12

/-- The invalid path characters removed by `sanitizePath`: `[<>:"|?*]`. -/
def isBadPathChar (c : Char) : Bool :=
  c = '<' || c = '>' || c = ':' || c = '"' || c = '|' || c = '?' || c = '*'

/-- ASCII lowercasing, the model of `String.prototype.toLowerCase`. -/
def lowerL (l : List Char) : List Char := l.map Char.toLower

/-! ## Substring scans (models of `String.includes` and anchored regexes) -/

/-- `leadsWith pat l` holds when `pat` is an initial run of `l`
(model of an anchored `^pat` regex test). -/
def leadsWith : List Char → List Char → Bool
  | [], _ => true
  | _ :: _, [] => false
  | p :: ps, c :: cs => p = c && leadsWith ps cs

/-- `containsSeq pat l`: `pat` occurs contiguously somewhere in `l`
(model of `String.includes` / an unanchored regex literal). -/
def containsSeq (pat : List Char) : List Char → Bool
  | [] => pat.isEmpty
  | c :: rest => leadsWith pat (c :: rest) || containsSeq pat rest

/-- Case-insensitive `leadsWith`; the pattern is supplied lowercased. -/
def ciLeads : List Char → List Char → Bool
  | [], _ => true
  | _ :: _, [] => false
  | p :: ps, c :: cs => p = c.toLower && ciLeads ps cs

/-! ## Splitting, collapsing and joining on separators -/

/-- Model of `String.prototype.split(sep)` for a single-character
separator: `"a//b"` splits to `["a","","b"]`, `""` to `[""]`. -/
def splitChar (sep : Char) : List Char → List (List Char)
  | [] => [[]]
  | c :: rest =>
    match splitChar sep rest with
    | [] => [[c]]
    | s :: ss => if c = sep then [] :: s :: ss else (c :: s) :: ss

/-- Model of `replace(/\/+/g, '/')`: collapse every run of slashes to one. -/
def collapseSlashes : List Char → List Char
  | [] => []
  | [c] => [c]
  | a :: b :: rest =>
    if a = '/' && b = '/' then collapseSlashes (b :: rest)
    else a :: collapseSlashes (b :: rest)

/-- Model of `Array.prototype.join('/')` on character lists. -/
def joinSegs : List (List Char) → List Char
  | [] => []
  | [s] => s
  | s :: rest => s ++ '/' :: joinSegs rest

/-- Model of `Array.prototype.join(sep)` on strings. -/
def joinStrSep (sep : String) : List String → String
  | [] => ""
  | [s] => s
  | s :: rest => s ++ sep ++ joinStrSep sep rest

/-! ## Event-handler regex `/on\w+\s*=/` (test form, no word boundary),
used by `isValidUrl`'s suspicious-pattern check -/

/-- Does `/on\w+\s*=/i` match at the head of `l`? Since `\w`, `\s` and `=`
are pairwise disjoint, the regex matches at a position exactly when `on`
(case-insensitively) is followed by a nonempty maximal word run, a maximal
whitespace run and then `=`. -/
def eventAtHead (l : List Char) : Bool :=
  match l with
  | a :: b :: rest =>
    ((a = 'o' || a = 'O') && (b = 'n' || b = 'N')) &&
    (!(rest.takeWhile isWordChar).isEmpty &&
      (match (rest.dropWhile isWordChar).dropWhile isSpaceChar with
       | '=' :: _ => true
       | _ => false))
  | _ => false

/-- `/on\w+\s*=/i.test(l)`: the pattern matches at some position of `l`. -/
def hasEventPattern : List Char → Bool
  | [] => false
  | c :: rest => eventAtHead (c :: rest) || hasEventPattern rest

/-! ## Event-handler regex `/\bon\w+\s*=/gi` replace,
used by `sanitizePath`'s segment cleaning -/

/-- Length of the `/\bon\w+\s*=/i` match starting at the head of `l`
(the boundary `\b` is handled by the caller), or `none`. -/
def ervMatchLen (l : List Char) : Option Nat :=
  match l with
  | a :: b :: rest =>
    if (a = 'o' || a = 'O') && (b = 'n' || b = 'N') then
      if (rest.takeWhile isWordChar).isEmpty then none
      else
        match (rest.dropWhile isWordChar).dropWhile isSpaceChar with
        | '=' :: _ =>
          some (2 + (rest.takeWhile isWordChar).length +
            ((rest.dropWhile isWordChar).takeWhile isSpaceChar).length + 1)
        | _ => none
    else none
  | _ => none

/-- One fuelled left-to-right pass of `replace(/\bon\w+\s*=/gi, '')`.
The Boolean argument records whether the previous character was a word
character (so `\b` holds exactly when it is `false`). Fuel is initialised
to the list length; each step consumes at least one character, so the
`0`-fuel branch is never reached from `ervReplace`. -/
def ervFuel : Nat → List Char → Bool → List Char
  | 0, l, _ => l
  | _ + 1, [], _ => []
  | fuel + 1, c :: rest, prevWord =>
    if prevWord then c :: ervFuel fuel rest (isWordChar c)
    else
      match ervMatchLen (c :: rest) with
      | some k => ervFuel fuel ((c :: rest).drop k) false
      | none => c :: ervFuel fuel rest (isWordChar c)

/-- `replace(/\bon\w+\s*=/gi, '')`. -/
def ervReplace (l : List Char) : List Char := ervFuel l.length l false

/-- Fuelled global case-insensitive literal replace with the empty string
(model of `replace(/pat/gi, '')` for a literal pattern, supplied
lowercased and nonempty). -/
def removeAllFuel (pat : List Char) : Nat → List Char → List Char
  | 0, l => l
  | _ + 1, [] => []
  | fuel + 1, c :: rest =>
    if ciLeads pat (c :: rest) then removeAllFuel pat fuel ((c :: rest).drop pat.length)
    else c :: removeAllFuel pat fuel rest

/-- `replace(/pat/gi, '')` for a literal lowercase pattern. -/
def removeAllCI (pat l : List Char) : List Char := removeAllFuel pat l.length l

/-! ## security-utils.ts: `sanitizePath` -/

/-- The per-segment cleaning chain of `sanitizePath`, in source order:
strip `[<>:"|?*]`, strip control characters, strip `/\bon\w+\s*=/gi`,
strip `/javascript:/gi`, strip `/<script/gi`. -/
def cleanSegment (seg : List Char) : List Char :=
  removeAllCI "<script".data
    (removeAllCI "javascript:".data
      (ervReplace
        ((seg.filter (fun c => !isBadPathChar c)).filter (fun c => !isCtlChar c))))

/-- The loop body of `sanitizePath`: drop `..`, `.` and empty segments,
clean the rest, keep nonempty results. -/
def keepSegment (seg : List Char) : Option (List Char) :=
  if seg = "..".data then none
  else if seg = ".".data ∨ seg = [] then none
  else
    let c := cleanSegment seg
    if c = [] then none else some c

/-- The list of segments `sanitizePath` keeps: null bytes removed, slash
runs collapsed, split on `/`, each segment filtered through
`keepSegment`. -/
def sanitizeSegments (l : List Char) : List (List Char) :=
  (splitChar '/' (collapseSlashes (l.filter (fun c => c ≠ '\x00')))).filterMap keepSegment

/-- `sanitizePath` from `security-utils.ts`: reconstructs
`'/' + result.join('/')`. -/
def sanitizePath (path : String) : String :=
  ⟨'/' :: joinSegs (sanitizeSegments path.data)⟩

/-! ## security-utils.ts: `isValidPath` -/

/-- `isValidPath` from `security-utils.ts`: rejects control characters,
malicious leading pseudo-protocols, traversal patterns (including encoded
variants) and absolute system paths. -/
def isValidPath (path : String) : Bool :=
  let l := path.data
  if l.any isCtlChar then false
  else if leadsWith "javascript:".data (lowerL l) || leadsWith "data:".data (lowerL l) ||
      leadsWith "vbscript:".data (lowerL l) || leadsWith "file:".data (lowerL l) ||
      leadsWith "ftp:".data (lowerL l) then false
  else if containsSeq "../".data l || containsSeq "..\\".data l ||
      containsSeq "%2e%2e".data (lowerL l) || containsSeq "..%2f".data (lowerL l) ||
      containsSeq "%252e%252e".data (lowerL l) then false
  else if leadsWith "/etc/".data l || leadsWith "/usr/".data l ||
      leadsWith "C:\\".data l || containsSeq ":\\".data l then false
  else true

/-! ## security-utils.ts: `isValidUrl` -/

/-- Scheme scan of the WHATWG URL parser: after a leading ASCII letter,
consume `[A-Za-z0-9+\-.]*` up to a `:`; anything else means `new URL`
throws for the inputs this library meets (no base URL is ever passed).
Returns the lowercased protocol including the `:`. -/
def schemeGo : List Char → List Char → Option (List Char)
  | [], _ => none
  | c :: rest, acc =>
    if c = ':' then some (lowerL acc.reverse ++ [':'])
    else if c.isAlphanum || c = '+' || c = '-' || c = '.' then schemeGo rest (c :: acc)
    else none

/-- Protocol of `new URL(l)`, or `none` when parsing fails. -/
def schemeSplit : List Char → Option (List Char)
  | [] => none
  | c :: rest => if c.isAlpha then schemeGo rest [c] else none

/-- `isValidUrl` from `security-utils.ts`. -/
def isValidUrl (url : String) : Bool :=
  let l := url.data
  match schemeSplit l with
  | none => false
  | some proto =>
    if ¬(proto = "http:".data ∨ proto = "https:".data) then false
    else if containsSeq "javascript:".data (lowerL l) ||
        containsSeq "data:".data (lowerL l) then false
    else if l.any isCtlChar then false
    else if containsSeq "<script".data (lowerL l) then false
    else if hasEventPattern l then false
    else if containsSeq "javascript:".data (lowerL l) then false
    else if containsSeq "vbscript:".data (lowerL l) then false
    else true

/-! ## security-utils.ts: `createSecurityError` -/

/-- A JavaScript `Error` object as the code observes it: its `name` and
`message` fields. -/
structure JsError where
  name : String
  message : String
deriving DecidableEq

/-- `new Error(msg)` (default name `"Error"`). -/
def mkError (msg : String) : JsError := { name := "Error", message := msg }

/-- `input.substring(0, 100)`. -/
def strTake (n : Nat) (s : String) : String := ⟨s.data.take n⟩

/-- Number of characters of a string (JavaScript `length` on these ASCII
inputs). -/
def strLen (s : String) : Nat := s.data.length

/-- `createSecurityError` from `security-utils.ts`: builds the message and
sets `error.name = 'SecurityValidationError'`. -/
def createSecurityError (operation input reason : String) : JsError :=
  { name := "SecurityValidationError"
    message :=
      "Security validation failed for " ++ operation ++ ": " ++ reason ++
      ". Input: \"" ++ strTake 100 input ++
      (if 100 < strLen input then "..." else "") ++ "\"" }

/-! ## Decimal rendering of naturals (JavaScript template-literal
number-to-string conversion for the integer parameters used here) -/

/-- Digit character for `n < 10`. -/
def digitChar10 (n : Nat) : Char := Char.ofNat (48 + n)

/-- Fuelled most-significant-first decimal digits; fuel `n + 1` always
suffices since the argument shrinks by a factor of ten. -/
def natDigitsAux : Nat → Nat → List Char
  | 0, _ => []
  | fuel + 1, n =>
    if n < 10 then [digitChar10 n]
    else natDigitsAux fuel (n / 10) ++ [digitChar10 (n % 10)]

/-- Decimal string of a natural number. -/
def natStr (n : Nat) : String := ⟨natDigitsAux (n + 1) n⟩

/-! ## types.ts: the `ImageTransforms` value type -/

/-- `fit` union type from `types.ts`. -/
inductive ImageFit
  | contain | cover | fill | inside | outside
deriving DecidableEq

/-- Wire spelling of an `ImageFit`. -/
def fitStr : ImageFit → String
  | .contain => "contain"
  | .cover => "cover"
  | .fill => "fill"
  | .inside => "inside"
  | .outside => "outside"

/-- `ImageFormat` union type from `types.ts`. -/
inductive ImageFormat
  | auto | avif | webp | jpeg | png | gif
deriving DecidableEq

/-- Wire spelling of an `ImageFormat`. -/
def formatStr : ImageFormat → String
  | .auto => "auto"
  | .avif => "avif"
  | .webp => "webp"
  | .jpeg => "jpeg"
  | .png => "png"
  | .gif => "gif"

/-- `blur?: number | boolean`. -/
inductive BlurValue
  | flag (b : Bool)
  | num (n : Nat)
deriving DecidableEq

/-- `extract` rectangle `{x, y, width, height}`. -/
structure ExtractRegion where
  x : Nat
  y : Nat
  width : Nat
  height : Nat
deriving DecidableEq

/-- `ImageTransforms` from `types.ts`; absent optional fields are `none`,
absent booleans are `false` (JavaScript `undefined` is falsy exactly like
`false` in every use the encoder makes of them). -/
structure ImageTransforms where
  width : Option Nat := none
  height : Option Nat := none
  quality : Option Nat := none
  format : Option ImageFormat := none
  fit : Option ImageFit := none
  blur : Option BlurValue := none
  grayscale : Bool := false
  flip : Bool := false
  flop : Bool := false
  dpr : Option Nat := none
  extract : Option ExtractRegion := none
deriving DecidableEq

/-! ## url-builder.ts: `buildTransformString` -/

/-- Token contributed by a numeric option under JavaScript truthiness
(`0` and `undefined` are falsy and contribute nothing). -/
def natOptPart (key : String) (v : Option Nat) : List String :=
  match v with
  | some n => if n = 0 then [] else [key ++ ":" ++ natStr n]
  | none => []

/-- The `parts` array pushed by `buildTransformString`, in source order:
size (`w`, `h`, `fit`), then `dpr`, flips, visual effects
(`blur`, `grayscale`), `extract`, and `format`/`quality` last. -/
def transformParts (t : ImageTransforms) : List String :=
  natOptPart "w" t.width ++
  natOptPart "h" t.height ++
  (match t.fit with
   | some f => ["fit:" ++ fitStr f]
   | none => []) ++
  natOptPart "dpr" t.dpr ++
  (if t.flip then ["flip"] else []) ++
  (if t.flop then ["flop"] else []) ++
  (match t.blur with
   | some (BlurValue.flag b) => if b then ["blur"] else []
   | some (BlurValue.num n) => if n = 0 then [] else ["blur:" ++ natStr n]
   | none => []) ++
  (if t.grayscale then ["grayscale"] else []) ++
  (match t.extract with
   | some e =>
     ["extract:" ++ natStr e.x ++ "-" ++ natStr e.y ++ "-" ++
       natStr e.width ++ "-" ++ natStr e.height]
   | none => []) ++
  (match t.format with
   | some f => if f = ImageFormat.auto then [] else ["format:" ++ formatStr f]
   | none => []) ++
  natOptPart "quality" t.quality

/-- `buildTransformString`: `parts.join(',')`. -/
def buildTransformString (t : ImageTransforms) : String :=
  joinStrSep "," (transformParts t)

/-! ## `URLSearchParams` serialization -/

/-- Characters the `application/x-www-form-urlencoded` serializer leaves
unescaped: ASCII alphanumerics and `*`, `-`, `.`, `_`. -/
def formSafe (c : Char) : Bool :=
  c.isAlphanum || c = '*' || c = '-' || c = '.' || c = '_'

/-- Uppercase hexadecimal digit for `n < 16`. -/
def hexDigitChar (n : Nat) : Char :=
  if n < 10 then Char.ofNat (48 + n) else Char.ofNat (55 + n)

/-- Percent-encoding of one character (code points below 128, covering all
strings this library produces): safe characters pass through, space
becomes `+`, everything else becomes `%XX`. -/
def formEncodeChar (c : Char) : List Char :=
  if formSafe c then [c]
  else if c = ' ' then ['+']
  else ['%', hexDigitChar (c.toNat / 16 % 16), hexDigitChar (c.toNat % 16)]

/-- Percent-encoding of a character list. -/
def formEncodeL : List Char → List Char
  | [] => []
  | c :: rest => formEncodeChar c ++ formEncodeL rest

/-- `URLSearchParams` value encoding (the key side of every pair this
library builds is already safe). -/
def formEncode (s : String) : String := ⟨formEncodeL s.data⟩

/-! ## url-builder.ts: `SnapkitUrlBuilder` -/

/-- A constructed URL builder: the resolved CDN base address. -/
structure SnapkitUrlBuilder where
  baseUrl : String
deriving DecidableEq

/-- `src.split('?')` destructured as `[path, query]`: the path is the text
before the first `?`; the query is the second split component (so text
after a second `?` is dropped, as in the source), and a missing or empty
component is the empty string (both are falsy where the source tests
`query ? ... : ...`). -/
def splitQ (src : String) : String × String :=
  let parts := splitChar '?' src.data
  (⟨parts.headD []⟩, ⟨(parts.drop 1).headD []⟩)

/-- `src.startsWith('http://') || src.startsWith('https://')`. -/
def isCompleteUrl (src : String) : Bool :=
  leadsWith "http://".data src.data || leadsWith "https://".data src.data

/-- `buildImageUrl` from `url-builder.ts`. -/
def buildImageUrl (b : SnapkitUrlBuilder) (src : String) : Except JsError String :=
  if isCompleteUrl src then
    if !isValidUrl src then
      .error (createSecurityError "image URL validation" src
        "Invalid or potentially malicious URL")
    else .ok src
  else
    let path := (splitQ src).1
    let query := (splitQ src).2
    if !isValidPath path then
      .error (createSecurityError "image path validation" path
        "Invalid or potentially malicious path")
    else
      let fullUrl := b.baseUrl ++ sanitizePath path
      .ok (if query ≠ "" then fullUrl ++ "?" ++ query else fullUrl)

/-- `baseUrl.includes('?')`. -/
def strContainsChar (s : String) (c : Char) : Bool := s.data.any (· = c)

/-- `buildTransformedUrl` from `url-builder.ts`. In the URL-proxy branch
`URLSearchParams` serializes `url` first and `transform` second, in
insertion order; in the path branch the single `transform` pair is
appended with `?` or `&` according to whether the base URL already
carries a query string. -/
def buildTransformedUrl (b : SnapkitUrlBuilder) (src : String)
    (t : ImageTransforms) : Except JsError String :=
  if isCompleteUrl src then
    if !isValidUrl src then
      .error (createSecurityError "external URL validation" src
        "Invalid or potentially malicious URL")
    else
      let ts := buildTransformString t
      if ts = "" then .ok (b.baseUrl ++ "/image?" ++ "url=" ++ formEncode src)
      else
        .ok (b.baseUrl ++ "/image?" ++ "url=" ++ formEncode src ++
          "&transform=" ++ formEncode ts)
  else
    match buildImageUrl b src with
    | .error e => .error e
    | .ok base =>
      let ts := buildTransformString t
      if ts = "" then .ok base
      else if strContainsChar base '?' then
        .ok (base ++ "&" ++ "transform=" ++ formEncode ts)
      else .ok (base ++ "?" ++ "transform=" ++ formEncode ts)

/-- Number of occurrences of a character in a string. -/
def countChar (c : Char) (s : String) : Nat := s.data.count c

/-! ## url-builder-factory.ts: `UrlBuilderFactory` -/

/-- `CdnConfig` from `types.ts`: `provider: 'snapkit' | 'custom'` with
optional `organizationName` and `baseUrl` fields. -/
structure CdnConfig where
  provider : String
  organizationName : Option String := none
  baseUrl : Option String := none
deriving DecidableEq

/-- JavaScript template interpolation of a possibly-undefined string. -/
def optStr : Option String → String
  | some s => s
  | none => "undefined"

/-- Organization-name character from `^[a-z0-9-]+$`. -/
def orgChar (c : Char) : Bool :=
  ('a' ≤ c && c ≤ 'z') || c.isDigit || c = '-'

/-- `/^[a-z0-9-]+$/.test(s)`. -/
def orgNameOk (s : String) : Bool := !s.data.isEmpty && s.data.all orgChar

/-- The `SnapkitUrlBuilder` constructor from `url-builder.ts`: resolves the
base address or throws a configuration / security error. -/
def mkSnapkitUrlBuilder (c : CdnConfig) : Except JsError SnapkitUrlBuilder :=
  if c.provider = "snapkit" then
    match c.organizationName with
    | none => .error (mkError "organizationName is required when using snapkit provider")
    | some s =>
      if s = "" then
        .error (mkError "organizationName is required when using snapkit provider")
      else if !orgNameOk s then
        .error (mkError
          "organizationName must only contain lowercase letters, numbers, and hyphens")
      else .ok ⟨"https://" ++ s ++ "-cdn.snapkit.studio"⟩
  else if c.provider = "custom" then
    match c.baseUrl with
    | none => .error (mkError "baseUrl is required when using custom provider")
    | some u =>
      if u = "" then .error (mkError "baseUrl is required when using custom provider")
      else if !isValidUrl u then
        .error (createSecurityError "custom CDN URL validation" u
          "Invalid or potentially malicious URL")
      else .ok ⟨u⟩
  else .error (mkError ("Unsupported CDN provider: " ++ c.provider))

/-- `UrlBuilderFactory.createKey`. -/
def createKey (c : CdnConfig) : Except JsError String :=
  if c.provider = "snapkit" then .ok ("snapkit:" ++ optStr c.organizationName)
  else if c.provider = "custom" then .ok ("custom:" ++ optStr c.baseUrl)
  else .error (mkError ("Unsupported CDN provider: " ++ c.provider))

/-- `Map.prototype.get`-style lookup on the insertion-ordered entry list
that models a JavaScript `Map`. -/
def lookupKey {K V : Type} [DecidableEq K] (k : K) : List (K × V) → Option V
  | [] => none
  | (k', v) :: rest => if k' = k then some v else lookupKey k rest

/-- `Map.prototype.delete`: removes the entry with the given key. -/
def eraseKey {K V : Type} [DecidableEq K] (k : K) : List (K × V) → List (K × V)
  | [] => []
  | (k', v) :: rest => if k' = k then rest else (k', v) :: eraseKey k rest

/-- The factory's static `instances` map. -/
abbrev FactoryState := List (String × SnapkitUrlBuilder)

/-- `UrlBuilderFactory.getInstance`: construct-and-memoize keyed by
`createKey`; a `Map.set` on a fresh key appends at the end. -/
def factoryGetInstance (st : FactoryState) (c : CdnConfig) :
    Except JsError (SnapkitUrlBuilder × FactoryState) :=
  match createKey c with
  | .error e => .error e
  | .ok key =>
    match lookupKey key st with
    | some b => .ok (b, st)
    | none =>
      match mkSnapkitUrlBuilder c with
      | .error e => .error e
      | .ok b => .ok (b, st ++ [(key, b)])

/-- A sequence of `getInstance` calls against the static map (a thrown
configuration error propagates to that caller and leaves the map
unchanged). -/
def runFactory (st : FactoryState) : List CdnConfig → FactoryState
  | [] => st
  | c :: rest =>
    match factoryGetInstance st c with
    | .ok (_, st') => runFactory st' rest
    | .error _ => runFactory st rest

/-! ## url-builder-factory.ts: the `LRUCache` class -/

/-- The `LRUCache` constructor: `maxSize` defaults to 100 and must be
positive; the argument is an `Int` so that "non-positive" covers negative
JavaScript numbers. -/
def lruMakeSize (n : Int) : Except JsError Int :=
  if n ≤ 0 then .error (mkError "LRU cache size must be positive") else .ok n

/-- `LRUCache.get`: on a hit, delete and re-insert at the end (most
recently used), returning the value and the updated entry list. -/
def lruGet {K V : Type} [DecidableEq K] (k : K) (l : List (K × V)) :
    Option V × List (K × V) :=
  match lookupKey k l with
  | none => (none, l)
  | some v => (some v, eraseKey k l ++ [(k, v)])

/-- `LRUCache.set`: an existing key is deleted first (position update); a
fresh key at capacity first evicts the first map entry (the least recently
used); the pair is then appended at the end. -/
def lruSet {K V : Type} [DecidableEq K] (cap : Nat) (k : K) (v : V)
    (l : List (K × V)) : List (K × V) :=
  if (lookupKey k l).isSome then eraseKey k l ++ [(k, v)]
  else if cap ≤ l.length then
    match l.head? with
    | some (k0, _) => eraseKey k0 l ++ [(k, v)]
    | none => l ++ [(k, v)]
  else l ++ [(k, v)]

/-! ## browser-compatibility.ts and constants.ts -/

def MIN_CHROME_VERSION_AVIF : Nat := 85
def MIN_FIREFOX_VERSION_AVIF : Nat := 93
def MIN_EDGE_VERSION_AVIF : Nat := 91
def IOS_AVIF_ISSUE_VERSION_MAJOR : Nat := 16
def IOS_AVIF_ISSUE_VERSION_MINOR_START : Nat := 0
def IOS_AVIF_ISSUE_VERSION_MINOR_END : Nat := 3
def IOS_AVIF_SUPPORT_VERSION_MINOR : Nat := 4

/-- Browser family as classified by `parseBrowserInfo`. -/
inductive BrowserName
  | chrome | firefox | safari | edge | legacyEdge | unknown
deriving DecidableEq

/-- Platform classification of `parseBrowserInfo`. -/
inductive BrowserPlatform
  | desktop | ios | android | unknown
deriving DecidableEq

/-- iOS `{major, minor}` version pair. -/
structure IosVersion where
  major : Nat
  minor : Nat
deriving DecidableEq

/-- `BrowserInfo` from `browser-compatibility.ts`. -/
structure BrowserInfo where
  name : BrowserName
  version : Nat
  platform : BrowserPlatform
  iosVersion : Option IosVersion := none
deriving DecidableEq

/-- The `switch (browserInfo.name)` body of `checkAvifSupport`. -/
def avifByBrowser (info : BrowserInfo) : Bool :=
  match info.name with
  | .chrome => MIN_CHROME_VERSION_AVIF ≤ info.version
  | .firefox => MIN_FIREFOX_VERSION_AVIF ≤ info.version
  | .edge => MIN_EDGE_VERSION_AVIF ≤ info.version
  | .legacyEdge => false
  | .safari =>
    match info.iosVersion with
    | some v =>
      IOS_AVIF_ISSUE_VERSION_MAJOR < v.major ∨
        (v.major = IOS_AVIF_ISSUE_VERSION_MAJOR ∧
          IOS_AVIF_SUPPORT_VERSION_MINOR ≤ v.minor)
    | none => false
  | .unknown => false

/-- `checkAvifSupport` from `browser-compatibility.ts`: the iOS 16.0–16.3
platform-defect window disables AVIF for every browser before the
per-family version thresholds apply. -/
def checkAvifSupport (info : BrowserInfo) : Bool :=
  match info.iosVersion with
  | some v =>
    if v.major = IOS_AVIF_ISSUE_VERSION_MAJOR ∧
        IOS_AVIF_ISSUE_VERSION_MINOR_START ≤ v.minor ∧
        v.minor ≤ IOS_AVIF_ISSUE_VERSION_MINOR_END then false
    else avifByBrowser info
  | none => avifByBrowser info

/-! ## Concrete fixtures used by the claim theorems -/

/-- The hosted builder for organization `acme`
(`https://acme-cdn.snapkit.studio`). -/
def acmeBuilder : SnapkitUrlBuilder := ⟨"https://acme-cdn.snapkit.studio"⟩

/-- The spec's full wire-format example transform set. -/
def specExampleTransforms : ImageTransforms :=
  { width := some 800, height := some 600, fit := some ImageFit.cover,
    dpr := some 2, flip := true, flop := true,
    blur := some (BlurValue.num 5), grayscale := true,
    extract := some ⟨10, 20, 100, 200⟩,
    format := some ImageFormat.webp, quality := some 85 }

/-- Fifty-one pairwise distinct valid hosted configurations. -/
def fiftyOneConfigs : List CdnConfig :=
  (List.range 51).map (fun i =>
    { provider := "snapkit", organizationName := some ("a" ++ natStr i) })

/-! ## Definitions used by the claim statements -/

/-- The key of an encoded transform token: the characters before the first
`:` (the whole token for a bare flag). -/
def tokenKey (s : String) : String := ⟨s.data.takeWhile (fun c => c ≠ ':')⟩

/-- The fixed canonical token order of the transform encoding. -/
def canonicalKeyOrder : List String :=
  ["w", "h", "fit", "dpr", "flip", "flop", "blur", "grayscale", "extract", "format", "quality"]

/-- Last character of a string, if any. -/
def lastCharQ (s : String) : Option Char := s.data.reverse.head?

/-! ## Helper lemmas -/

theorem strData_append (a b : String) : (a ++ b).data = a.data ++ b.data := by
  cases a
  cases b
  rfl

theorem length_take_le (n : Nat) (l : List Char) : (l.take n).length ≤ n := by
  simp [List.length_take]

theorem getLast?_concat_pair {α : Type} (l : List α) (a : α) :
    (l ++ [a]).getLast? = some a := by
  induction l with
  | nil => rfl
  | cons x xs ih => rw [List.cons_append, List.getLast?_cons, ih]; simp

/-! ## Claim C6 -/

/-- Claim C6: `isValidPath("../../../etc/passwd")` is `false`, and
`buildImageUrl` on that input throws an error whose `name` is
`SecurityValidationError`, whose message carries the operation name, a
copy of the offending input truncated to at most 100 characters, and a
human-readable reason. -/
theorem c6_traversal_rejection :
    isValidPath "../../../etc/passwd" = false ∧
    buildImageUrl acmeBuilder "../../../etc/passwd" =
      .error (createSecurityError "image path validation" "../../../etc/passwd"
        "Invalid or potentially malicious path") ∧
    (∀ operation input reason : String,
      (createSecurityError operation input reason).name = "SecurityValidationError" ∧
      strLen (strTake 100 input) ≤ 100 ∧
      (createSecurityError operation input reason).message =
        "Security validation failed for " ++ operation ++ ": " ++ reason ++
        ". Input: \"" ++ strTake 100 input ++
        (if 100 < strLen input then "..." else "") ++ "\"") := by
  refine ⟨by decide, by rfl, ?_⟩
  intro operation input reason
  exact ⟨rfl, length_take_le 100 input.data, rfl⟩

/-! ## Claim C9 -/

/-- Claim C9, counterexample: the claim asserts (with the spec) that
macOS Safari 16.4+ supports AVIF, but `checkAvifSupport` returns `false`
for a desktop Safari of major version 17 (whose `BrowserInfo` carries no
iOS version pair). -/
theorem c9_macos_safari_counterexample :
    checkAvifSupport
      { name := BrowserName.safari, version := 17,
        platform := BrowserPlatform.desktop, iosVersion := none } = false := by
  decide

/-- Claim C9 (amended): `checkAvifSupport` returns `false` for every
`BrowserInfo` whose iOS version is 16.0 through 16.3 inclusive regardless
of browser family, `true` for Safari with iOS version 16.4 or later,
`false` for legacy Edge always, and `false` for Safari without an iOS
version pair (macOS Safari is conservatively treated as unsupported). -/
theorem c9_avif_support_amended :
    (∀ (info : BrowserInfo) (v : IosVersion), info.iosVersion = some v →
      v.major = 16 → v.minor ≤ 3 → checkAvifSupport info = false) ∧
    (∀ (info : BrowserInfo) (v : IosVersion), info.name = BrowserName.safari →
      info.iosVersion = some v → (16 < v.major ∨ (v.major = 16 ∧ 4 ≤ v.minor)) →
      checkAvifSupport info = true) ∧
    (∀ info : BrowserInfo, info.name = BrowserName.legacyEdge →
      checkAvifSupport info = false) ∧
    (∀ info : BrowserInfo, info.name = BrowserName.safari →
      info.iosVersion = none → checkAvifSupport info = false) := by
  refine ⟨?_, ?_, ?_, ?_⟩
  · intro info v hios hmaj hmin
    simp only [checkAvifSupport, hios, IOS_AVIF_ISSUE_VERSION_MAJOR,
      IOS_AVIF_ISSUE_VERSION_MINOR_START, IOS_AVIF_ISSUE_VERSION_MINOR_END]
    rw [if_pos ⟨hmaj, Nat.zero_le _, hmin⟩]
  · intro info v hname hios hver
    simp only [checkAvifSupport, hios, IOS_AVIF_ISSUE_VERSION_MAJOR,
      IOS_AVIF_ISSUE_VERSION_MINOR_START, IOS_AVIF_ISSUE_VERSION_MINOR_END]
    rw [if_neg (by omega)]
    simp only [avifByBrowser, hname, hios, IOS_AVIF_ISSUE_VERSION_MAJOR,
      IOS_AVIF_SUPPORT_VERSION_MINOR]
    simp only [decide_eq_true_eq]
    omega
  · intro info hname
    simp only [checkAvifSupport]
    cases hios : info.iosVersion with
    | none => simp only [avifByBrowser, hname]
    | some v =>
      simp only [avifByBrowser, hname]
      split <;> rfl
  · intro info hname hios
    simp only [checkAvifSupport, hios, avifByBrowser, hname]

/-! ## Claim C8 -/

/-- Claim C8: for every `LRUCache`, `get` and `set` promote the touched
key to the most-recently-used (last) position; a `set` of a fresh key on a
full cache evicts exactly the first entry of the recency order (the least
recently touched, as the concrete run shows: with capacity 2 after
`set 1, set 2, get 1`, inserting `3` evicts key `2`, not the
least-recently-inserted key `1`); and the constructor rejects non-positive
capacities. -/
theorem c8_lru_behavior :
    (∀ (K V : Type) [DecidableEq K] (l : List (K × V)) (k : K) (v : V),
      lookupKey k l = some v →
      (lruGet k l).1 = some v ∧ ((lruGet k l).2).getLast? = some (k, v)) ∧
    (∀ (K V : Type) [DecidableEq K] (cap : Nat) (l : List (K × V)) (k : K) (v : V),
      (lruSet cap k v l).getLast? = some (k, v)) ∧
    (∀ (K V : Type) [DecidableEq K] (cap : Nat) (hd : K × V) (tl : List (K × V))
      (k : K) (v : V),
      lookupKey k (hd :: tl) = none → (hd :: tl).length = cap →
      lruSet cap k v (hd :: tl) = tl ++ [(k, v)]) ∧
    lruSet 2 3 30 ((lruGet 1 (lruSet 2 2 20 (lruSet 2 1 10 ([] : List (Nat × Nat))))).2) =
      [(1, 10), (3, 30)] ∧
    (∀ n : Int,
      (n ≤ 0 → lruMakeSize n = .error (mkError "LRU cache size must be positive")) ∧
      (0 < n → lruMakeSize n = .ok n)) := by
  refine ⟨?_, ?_, ?_, by decide, ?_⟩
  · intro K V _ l k v hlook
    have h1 : lruGet k l = (some v, eraseKey k l ++ [(k, v)]) := by
      simp [lruGet, hlook]
    rw [h1]
    exact ⟨rfl, getLast?_concat_pair _ _⟩
  · intro K V _ cap l k v
    simp only [lruSet]
    split
    · exact getLast?_concat_pair _ _
    · split
      · split
        · exact getLast?_concat_pair _ _
        · exact getLast?_concat_pair _ _
      · exact getLast?_concat_pair _ _
  · intro K V _ cap hd tl k v hlook hlen
    obtain ⟨k0, v0⟩ := hd
    simp only [lruSet, hlook, Option.isSome_none, Bool.false_eq_true, if_false]
    rw [if_pos (by omega)]
    simp [List.head?_cons, eraseKey]
  · intro n
    constructor
    · intro h
      simp only [lruMakeSize, if_pos h]
    · intro h
      simp only [lruMakeSize]
      rw [if_neg (by omega)]

/-- Witness for C8: the promotion and eviction facts applied at concrete
caches over natural-number keys and values. -/
theorem c8_lru_behavior_witness :
    ((lruGet 1 [(1, 10), (2, 20)]).1 = some 10 ∧
      ((lruGet 1 [(1, 10), (2, 20)]).2).getLast? = some (1, 10)) ∧
    lruSet 2 3 30 [(2, 20), (1, 10)] = [(1, 10), (3, 30)] ∧
    lruMakeSize (-5) = .error (mkError "LRU cache size must be positive") ∧
    lruMakeSize 7 = .ok 7 := by
  refine ⟨c8_lru_behavior.1 Nat Nat [(1, 10), (2, 20)] 1 10 (by decide), ?_, ?_, ?_⟩
  · have h := c8_lru_behavior.2.2.1 Nat Nat 2 (2, 20) [(1, 10)] 3 30 (by decide) (by decide)
    exact h
  · exact (c8_lru_behavior.2.2.2.2 (-5)).1 (by decide)
  · exact (c8_lru_behavior.2.2.2.2 7).2 (by decide)

/-! ## Claim C10 -/

/-- Claim C10: every candidate string containing `javascript:` or `data:`
anywhere (case-insensitively) fails `isValidUrl`, and consequently
`buildImageUrl` and `buildTransformedUrl` throw on every absolute URL
containing such a substring. -/
theorem c10_malicious_substring_rejection :
    (∀ url : String,
      (containsSeq "javascript:".data (lowerL url.data) = true ∨
        containsSeq "data:".data (lowerL url.data) = true) →
      isValidUrl url = false) ∧
    (∀ (src : String) (b : SnapkitUrlBuilder) (t : ImageTransforms),
      isCompleteUrl src = true →
      (containsSeq "javascript:".data (lowerL src.data) = true ∨
        containsSeq "data:".data (lowerL src.data) = true) →
      buildImageUrl b src =
        .error (createSecurityError "image URL validation" src
          "Invalid or potentially malicious URL") ∧
      buildTransformedUrl b src t =
        .error (createSecurityError "external URL validation" src
          "Invalid or potentially malicious URL")) := by
  have hvalid : ∀ url : String,
      (containsSeq "javascript:".data (lowerL url.data) = true ∨
        containsSeq "data:".data (lowerL url.data) = true) →
      isValidUrl url = false := by
    intro url h
    have hjd : (containsSeq "javascript:".data (lowerL url.data) ||
        containsSeq "data:".data (lowerL url.data)) = true := by
      rcases h with h | h <;> simp [h]
    simp only [isValidUrl]
    cases hs : schemeSplit url.data with
    | none => rfl
    | some proto =>
      dsimp only
      by_cases hp : proto = "http:".data ∨ proto = "https:".data
      · rw [if_neg (not_not_intro hp), if_pos hjd]
      · rw [if_pos hp]
  refine ⟨hvalid, ?_⟩
  intro src b t hcomp h
  constructor
  · simp only [buildImageUrl, hcomp, if_true, hvalid src h]
    rfl
  · simp only [buildTransformedUrl, hcomp, if_true, hvalid src h]
    rfl

/-- Witness for C10 at a well-formed https URL whose query carries a
`javascript:` payload. -/
theorem c10_malicious_substring_rejection_witness :
    isValidUrl "https://x.com/a?q=javascript:alert(1)" = false ∧
    buildImageUrl acmeBuilder "https://x.com/a?q=javascript:alert(1)" =
      .error (createSecurityError "image URL validation"
        "https://x.com/a?q=javascript:alert(1)"
        "Invalid or potentially malicious URL") := by
  refine ⟨c10_malicious_substring_rejection.1 _ (Or.inl (by decide)),
    (c10_malicious_substring_rejection.2 _ acmeBuilder {} (by decide)
      (Or.inl (by decide))).1⟩

/-! ## Claim C3 -/

/-- Claim C3, counterexample: fifty-one `getInstance` calls with
pairwise-distinct valid hosted configurations leave fifty-one builder
instances retained — the factory cache is not bounded by 50 and evicts
nothing. -/
theorem c3_factory_unbounded_counterexample :
    (runFactory [] fiftyOneConfigs).length = 51 ∧
    ¬((runFactory [] fiftyOneConfigs).length ≤ 50) := by
  constructor
  · decide
  · decide

/-- Claim C3 (amended): the builder instance cache is an unbounded
insertion-ordered map, not a capacity-50 LRU: a successful `getInstance`
never evicts (the state grows by at most the one fresh entry, every prior
entry surviving in place), and a key already present is returned memoized
with the state unchanged. -/
theorem c3_factory_memoization :
    (∀ (st : FactoryState) (c : CdnConfig) (b : SnapkitUrlBuilder) (st' : FactoryState),
      factoryGetInstance st c = .ok (b, st') →
      ∃ tail, st' = st ++ tail ∧ tail.length ≤ 1) ∧
    (∀ (st : FactoryState) (c : CdnConfig) (key : String) (b0 : SnapkitUrlBuilder),
      createKey c = .ok key → lookupKey key st = some b0 →
      factoryGetInstance st c = .ok (b0, st)) := by
  constructor
  · intro st c b st' h
    unfold factoryGetInstance at h
    cases hk : createKey c with
    | error e =>
      rw [hk] at h
      dsimp only at h
      exact Except.noConfusion h
    | ok key =>
      rw [hk] at h
      dsimp only at h
      cases hl : lookupKey key st with
      | some b0 =>
        rw [hl] at h
        dsimp only at h
        simp only [Except.ok.injEq, Prod.mk.injEq] at h
        exact ⟨[], by simp [h.2.symm], by simp⟩
      | none =>
        rw [hl] at h
        dsimp only at h
        cases hm : mkSnapkitUrlBuilder c with
        | error e =>
          rw [hm] at h
          dsimp only at h
          exact Except.noConfusion h
        | ok b1 =>
          rw [hm] at h
          dsimp only at h
          simp only [Except.ok.injEq, Prod.mk.injEq] at h
          exact ⟨[(key, b1)], h.2.symm, by simp⟩
  · intro st c key b0 hk hl
    simp [factoryGetInstance, hk, hl]

/-- Witness for C3: a fresh hosted configuration inserted into the empty
cache, and the same key then found memoized. -/
theorem c3_factory_memoization_witness :
    (∃ tail, [("snapkit:acme", acmeBuilder)] = ([] : FactoryState) ++ tail ∧
      tail.length ≤ 1) ∧
    factoryGetInstance [("snapkit:acme", acmeBuilder)]
        { provider := "snapkit", organizationName := some "acme" } =
      .ok (acmeBuilder, [("snapkit:acme", acmeBuilder)]) := by
  constructor
  · exact c3_factory_memoization.1 []
      { provider := "snapkit", organizationName := some "acme" }
      acmeBuilder [("snapkit:acme", acmeBuilder)] (by rfl)
  · exact c3_factory_memoization.2 [("snapkit:acme", acmeBuilder)]
      { provider := "snapkit", organizationName := some "acme" }
      "snapkit:acme" acmeBuilder (by rfl) (by rfl)

/-- Witness for C9: the amended support table applied at concrete
`BrowserInfo` values (iOS 16.2 Chrome, iOS 16.4 Safari, legacy Edge,
and desktop Safari without an iOS version). -/
theorem c9_avif_support_amended_witness :
    checkAvifSupport
      { name := BrowserName.chrome, version := 120,
        platform := BrowserPlatform.ios, iosVersion := some ⟨16, 2⟩ } = false ∧
    checkAvifSupport
      { name := BrowserName.safari, version := 16,
        platform := BrowserPlatform.ios, iosVersion := some ⟨16, 4⟩ } = true ∧
    checkAvifSupport
      { name := BrowserName.legacyEdge, version := 18,
        platform := BrowserPlatform.desktop, iosVersion := none } = false ∧
    checkAvifSupport
      { name := BrowserName.safari, version := 15,
        platform := BrowserPlatform.desktop, iosVersion := none } = false := by
  refine ⟨?_, ?_, ?_, ?_⟩
  · exact c9_avif_support_amended.1 _ ⟨16, 2⟩ rfl rfl (by decide)
  · exact c9_avif_support_amended.2.1 _ ⟨16, 4⟩ rfl rfl (Or.inr ⟨rfl, by decide⟩)
  · exact c9_avif_support_amended.2.2.1 _ rfl
  · exact c9_avif_support_amended.2.2.2 _ rfl rfl

/-! ## Helper lemmas for the transform-token claims -/

theorem takeWhile_append_stop (p : Char → Bool) :
    ∀ (l : List Char) (x : Char) (r : List Char),
    (∀ c ∈ l, p c = true) → p x = false →
    (l ++ x :: r).takeWhile p = l := by
  intro l
  induction l with
  | nil => intro x r _ hx; simp [List.takeWhile_cons, hx]
  | cons a l2 ih =>
    intro x r hall hx
    have ha : p a = true := hall a (by simp)
    simp only [List.cons_append, List.takeWhile_cons, ha, if_true]
    rw [ih x r (fun c hc => hall c (by simp [hc])) hx]

/-- `tokenKey` of a token whose data splits as `key ++ ':' :: rest` is the
key. -/
theorem tokenKey_data (s : String) (k r : List Char) (hs : s.data = k ++ ':' :: r)
    (hk : ∀ c ∈ k, c ≠ ':') : tokenKey s = ⟨k⟩ := by
  unfold tokenKey
  rw [hs, takeWhile_append_stop _ k ':' r (fun c hc => by simp [hk c hc]) (by decide)]

theorem digitChar10_isDigit (n : Nat) (h : n < 10) : (digitChar10 n).isDigit = true := by
  interval_cases n <;> decide

theorem natDigitsAux_digits :
    ∀ (fuel n : Nat), ∀ c ∈ natDigitsAux fuel n, c.isDigit = true := by
  intro fuel
  induction fuel with
  | zero => intro n c hc; simp [natDigitsAux] at hc
  | succ f ih =>
    intro n c hc
    simp only [natDigitsAux] at hc
    split at hc
    · next h =>
      simp only [List.mem_singleton] at hc
      subst hc
      exact digitChar10_isDigit n h
    · next h =>
      rcases List.mem_append.mp hc with h1 | h1
      · exact ih _ c h1
      · simp only [List.mem_singleton] at h1
        subst h1
        exact digitChar10_isDigit _ (Nat.mod_lt _ (by omega))

theorem natDigitsAux_ne_nil (f n : Nat) : natDigitsAux (f + 1) n ≠ [] := by
  simp only [natDigitsAux]
  split
  · simp
  · simp

theorem natStr_data_ne_nil (n : Nat) : (natStr n).data ≠ [] :=
  natDigitsAux_ne_nil n n

theorem natStr_digits (n : Nat) : ∀ c ∈ (natStr n).data, c.isDigit = true :=
  natDigitsAux_digits (n + 1) n

theorem lastQ_append (a b : List Char) (hb : b ≠ []) :
    (a ++ b).reverse.head? = b.reverse.head? := by
  rw [List.reverse_append]
  cases hrb : b.reverse with
  | nil => exact absurd (List.reverse_eq_nil_iff.mp hrb) hb
  | cons h t => simp

theorem head?_reverse_mem (b : List Char) (c : Char) (h : b.reverse.head? = some c) :
    c ∈ b := by
  cases hrb : b.reverse with
  | nil => rw [hrb] at h; cases h
  | cons x t =>
    rw [hrb] at h
    simp only [List.head?_cons, Option.some.injEq] at h
    subst h
    exact List.mem_reverse.mp (by rw [hrb]; simp)

/-- A token whose data ends in the digits of `natStr m` is nonempty and
does not end in `:`. -/
theorem token_digits_ok (s : String) (m : Nat) (a : List Char)
    (hs : s.data = a ++ (natStr m).data) :
    s.data ≠ [] ∧ lastCharQ s ≠ some ':' := by
  constructor
  · rw [hs]
    intro h
    rcases List.append_eq_nil.mp h with ⟨_, h2⟩
    exact natStr_data_ne_nil m h2
  · unfold lastCharQ
    rw [hs, lastQ_append _ _ (natStr_data_ne_nil m)]
    intro h
    have hc := head?_reverse_mem _ _ h
    exact absurd (natStr_digits m ':' hc) (by decide)

theorem lastCharQ_strAppend (p q : String) (hq : q.data ≠ []) :
    lastCharQ (p ++ q) = lastCharQ q := by
  unfold lastCharQ
  rw [strData_append]
  exact lastQ_append _ _ hq

theorem strAppend_data_ne_nil (p q : String) (hq : q.data ≠ []) :
    (p ++ q).data ≠ [] := by
  rw [strData_append]
  intro h
  exact hq (List.append_eq_nil.mp h).2

/-- Appending to the left preserves "nonempty and not ending in `:`". -/
theorem token_ok_append (p q : String)
    (h : q.data ≠ [] ∧ lastCharQ q ≠ some ':') :
    (p ++ q).data ≠ [] ∧ lastCharQ (p ++ q) ≠ some ':' :=
  ⟨strAppend_data_ne_nil p q h.1, by rw [lastCharQ_strAppend p q h.1]; exact h.2⟩

/-- A decimal numeral is nonempty and does not end in `:`. -/
theorem natStr_token_ok (n : Nat) :
    (natStr n).data ≠ [] ∧ lastCharQ (natStr n) ≠ some ':' := by
  refine ⟨natStr_data_ne_nil n, ?_⟩
  unfold lastCharQ
  intro h
  exact absurd (natStr_digits n ':' (head?_reverse_mem _ _ h)) (by decide)
/-- Helper: a mapped singleton token whose key is `key` is a sublist of
`[key]`. -/
theorem map_tokenKey_singleton (s key : String) (h : tokenKey s = key) :
    List.Sublist ([s].map tokenKey) [key] := by
  simp only [List.map_cons, List.map_nil, h]
  exact List.Sublist.refl _

/-- The token of a numeric option keys as the option's key. -/
theorem map_tokenKey_natOptPart (key : String) (v : Option Nat)
    (hk : ∀ c ∈ key.data, c ≠ ':') :
    List.Sublist ((natOptPart key v).map tokenKey) [key] := by
  cases v with
  | none => simp [natOptPart]
  | some n =>
    simp only [natOptPart]
    split
    · simp
    · refine map_tokenKey_singleton _ _ (tokenKey_data _ key.data (natStr n).data ?_ hk)
      rw [strData_append, strData_append, List.append_assoc]
      rfl

/-! ## Claim C2 -/

/-- Claim C2: the transform encoding is deterministic — identical
`ImageTransforms` values always produce byte-identical strings — and its
token order is fixed: the keys of the emitted tokens always form a
subsequence of the canonical order `w, h, fit, dpr, flip, flop, blur,
grayscale, extract, format, quality` (size first, then dpr, flips, visual
effects, extract, and format/quality last). -/
theorem c2_encoding_deterministic_ordered :
    ∀ t1 t2 : ImageTransforms, t1 = t2 →
      buildTransformString t1 = buildTransformString t2 ∧
      List.Sublist ((transformParts t1).map tokenKey) canonicalKeyOrder := by
  intro t1 t2 heq
  subst heq
  refine ⟨rfl, ?_⟩
  have hw : List.Sublist ((natOptPart "w" t1.width).map tokenKey) ["w"] :=
    map_tokenKey_natOptPart _ _ (by decide)
  have hh : List.Sublist ((natOptPart "h" t1.height).map tokenKey) ["h"] :=
    map_tokenKey_natOptPart _ _ (by decide)
  have hdpr : List.Sublist ((natOptPart "dpr" t1.dpr).map tokenKey) ["dpr"] :=
    map_tokenKey_natOptPart _ _ (by decide)
  have hq : List.Sublist ((natOptPart "quality" t1.quality).map tokenKey) ["quality"] :=
    map_tokenKey_natOptPart _ _ (by decide)
  have hfit : List.Sublist ((match t1.fit with
      | some f => ["fit:" ++ fitStr f]
      | none => []).map tokenKey) ["fit"] := by
    rcases t1.fit with _ | f
    · simp
    · refine map_tokenKey_singleton _ _ (tokenKey_data _ "fit".data (fitStr f).data ?_ (by decide))
      rw [strData_append]
      rfl
  have hflip : List.Sublist ((if t1.flip then ["flip"] else []).map tokenKey) ["flip"] := by
    cases t1.flip
    · simp
    · exact map_tokenKey_singleton _ _ (by decide)
  have hflop : List.Sublist ((if t1.flop then ["flop"] else []).map tokenKey) ["flop"] := by
    cases t1.flop
    · simp
    · exact map_tokenKey_singleton _ _ (by decide)
  have hgray : List.Sublist ((if t1.grayscale then ["grayscale"] else []).map tokenKey)
      ["grayscale"] := by
    cases t1.grayscale
    · simp
    · exact map_tokenKey_singleton _ _ (by decide)
  have hblur : List.Sublist ((match t1.blur with
      | some (BlurValue.flag b) => if b then ["blur"] else []
      | some (BlurValue.num n) => if n = 0 then [] else ["blur:" ++ natStr n]
      | none => []).map tokenKey) ["blur"] := by
    rcases t1.blur with _ | (b | n)
    · simp
    · dsimp only
      cases b
      · simp
      · exact map_tokenKey_singleton _ _ (by decide)
    · dsimp only
      split
      · simp
      · refine map_tokenKey_singleton _ _
          (tokenKey_data _ "blur".data (natStr n).data ?_ (by decide))
        rw [strData_append]
        rfl
  have hex : List.Sublist ((match t1.extract with
      | some e =>
        ["extract:" ++ natStr e.x ++ "-" ++ natStr e.y ++ "-" ++
          natStr e.width ++ "-" ++ natStr e.height]
      | none => []).map tokenKey) ["extract"] := by
    rcases t1.extract with _ | e
    · simp
    · refine map_tokenKey_singleton _ _
        (tokenKey_data _ "extract".data
          ((natStr e.x).data ++ "-".data ++ (natStr e.y).data ++ "-".data ++
            (natStr e.width).data ++ "-".data ++ (natStr e.height).data) ?_ (by decide))
      simp only [strData_append]
      simp [List.append_assoc]
  have hfmt : List.Sublist ((match t1.format with
      | some f => if f = ImageFormat.auto then [] else ["format:" ++ formatStr f]
      | none => []).map tokenKey) ["format"] := by
    rcases t1.format with _ | f
    · simp
    · dsimp only
      split
      · simp
      · refine map_tokenKey_singleton _ _
          (tokenKey_data _ "format".data (formatStr f).data ?_ (by decide))
        rw [strData_append]
        rfl
  simp only [transformParts, List.map_append]
  exact (((((((((hw.append hh).append hfit).append hdpr).append hflip).append
    hflop).append hblur).append hgray).append hex).append hfmt).append hq

/-- Witness for C2 at the spec's example transform set. -/
theorem c2_encoding_deterministic_ordered_witness :
    buildTransformString specExampleTransforms =
      buildTransformString specExampleTransforms ∧
    List.Sublist ((transformParts specExampleTransforms).map tokenKey)
      canonicalKeyOrder :=
  c2_encoding_deterministic_ordered specExampleTransforms specExampleTransforms rfl

/-! ## Claim C5 -/

/-- Claim C5: the encoder omits `format:'auto'` and all falsy-valued
optional fields: encoding `{format: "auto", quality: 0}` yields the empty
string (so neither a `format` nor a `quality` token), the empty transform
set encodes to the empty string, and no emitted token is empty or of the
form `key:` with an empty value (none ends in `:`). -/
theorem c5_falsy_omission :
    buildTransformString { format := some ImageFormat.auto, quality := some 0 } = "" ∧
    buildTransformString {} = "" ∧
    (∀ t : ImageTransforms, ∀ s ∈ transformParts t,
      s.data ≠ [] ∧ lastCharQ s ≠ some ':') := by
  refine ⟨by decide, by decide, ?_⟩
  intro t s hs
  simp only [transformParts, List.mem_append] at hs
  have hnat : ∀ (key : String) (v : Option Nat), s ∈ natOptPart key v →
      s.data ≠ [] ∧ lastCharQ s ≠ some ':' := by
    intro key v hv
    cases v with
    | none => simp [natOptPart] at hv
    | some n =>
      simp only [natOptPart] at hv
      split at hv
      · simp at hv
      · simp only [List.mem_singleton] at hv
        subst hv
        exact token_ok_append _ _ (natStr_token_ok n)
  rcases hs with ((((((((((h | h) | h) | h) | h) | h) | h) | h) | h) | h) | h)
  · exact hnat _ _ h
  · exact hnat _ _ h
  · rcases hf : t.fit with _ | f
    · rw [hf] at h
      simp at h
    · rw [hf] at h
      simp only [List.mem_singleton] at h
      subst h
      cases f <;> exact ⟨by decide, by decide⟩
  · exact hnat _ _ h
  · rcases hf : t.flip
    · rw [hf] at h
      simp at h
    · rw [hf] at h
      simp only [if_true, List.mem_singleton] at h
      subst h
      exact ⟨by decide, by decide⟩
  · rcases hf : t.flop
    · rw [hf] at h
      simp at h
    · rw [hf] at h
      simp only [if_true, List.mem_singleton] at h
      subst h
      exact ⟨by decide, by decide⟩
  · rcases hb : t.blur with _ | (b | n)
    · rw [hb] at h
      simp at h
    · rw [hb] at h
      dsimp only at h
      cases b
      · simp at h
      · simp only [if_true, List.mem_singleton] at h
        subst h
        exact ⟨by decide, by decide⟩
    · rw [hb] at h
      dsimp only at h
      split at h
      · simp at h
      · simp only [List.mem_singleton] at h
        subst h
        exact token_ok_append _ _ (natStr_token_ok n)
  · rcases hg : t.grayscale
    · rw [hg] at h
      simp at h
    · rw [hg] at h
      simp only [if_true, List.mem_singleton] at h
      subst h
      exact ⟨by decide, by decide⟩
  · rcases he : t.extract with _ | e
    · rw [he] at h
      simp at h
    · rw [he] at h
      simp only [List.mem_singleton] at h
      subst h
      exact token_ok_append _ _ (natStr_token_ok e.height)
  · rcases hf : t.format with _ | f
    · rw [hf] at h
      simp at h
    · rw [hf] at h
      dsimp only at h
      split at h
      · simp at h
      · simp only [List.mem_singleton] at h
        subst h
        cases f <;> exact ⟨by decide, by decide⟩
  · exact hnat _ _ h

/-- Witness for C5: the token-shape facts evaluated at the spec's example
transform set. -/
theorem c5_falsy_omission_witness :
    "w:800" ∈ transformParts specExampleTransforms ∧
    ("w:800" : String).data ≠ [] ∧ lastCharQ "w:800" ≠ some ':' := by
  refine ⟨by decide, c5_falsy_omission.2.2 specExampleTransforms "w:800" (by decide)⟩

/-! ## Helper lemmas for the URL-shape claims -/

theorem ervFuel_sublist : ∀ (fuel : Nat) (l : List Char) (b : Bool),
    List.Sublist (ervFuel fuel l b) l := by
  intro fuel
  induction fuel with
  | zero => intro l b; exact List.Sublist.refl l
  | succ f ih =>
    intro l b
    cases l with
    | nil => exact List.nil_sublist _
    | cons c rest =>
      simp only [ervFuel]
      cases b with
      | true =>
        rw [if_pos rfl]
        exact List.Sublist.cons₂ c (ih rest _)
      | false =>
        rw [if_neg (by simp)]
        cases hm : ervMatchLen (c :: rest) with
        | some k => exact (ih ((c :: rest).drop k) false).trans (List.drop_sublist _ _)
        | none => exact List.Sublist.cons₂ c (ih rest _)

theorem removeAllFuel_sublist (pat : List Char) :
    ∀ (fuel : Nat) (l : List Char), List.Sublist (removeAllFuel pat fuel l) l := by
  intro fuel
  induction fuel with
  | zero => intro l; exact List.Sublist.refl l
  | succ f ih =>
    intro l
    cases l with
    | nil => exact List.nil_sublist _
    | cons c rest =>
      simp only [removeAllFuel]
      split
      · exact (ih ((c :: rest).drop pat.length)).trans (List.drop_sublist _ _)
      · exact List.Sublist.cons₂ c (ih rest)

theorem cleanSegment_sublist (seg : List Char) :
    List.Sublist (cleanSegment seg)
      ((seg.filter (fun c => !isBadPathChar c)).filter (fun c => !isCtlChar c)) := by
  unfold cleanSegment removeAllCI ervReplace
  exact (removeAllFuel_sublist _ _ _).trans
    ((removeAllFuel_sublist _ _ _).trans (ervFuel_sublist _ _ _))

theorem cleanSegment_sublist_self (seg : List Char) :
    List.Sublist (cleanSegment seg) seg :=
  (cleanSegment_sublist seg).trans
    ((List.filter_sublist _).trans (List.filter_sublist _))

theorem mem_cleanSegment_flags (seg : List Char) (c : Char) (h : c ∈ cleanSegment seg) :
    isBadPathChar c = false ∧ isCtlChar c = false := by
  have h2 := (cleanSegment_sublist seg).subset h
  have h3 := List.mem_filter.mp h2
  have h4 := List.mem_filter.mp h3.1
  exact ⟨by simpa using h4.2, by simpa using h3.2⟩

theorem splitChar_ne_nil (sep : Char) (l : List Char) : splitChar sep l ≠ [] := by
  cases l with
  | nil => simp [splitChar]
  | cons c rest =>
    simp only [splitChar]
    cases h : splitChar sep rest with
    | nil => simp
    | cons s ss =>
      dsimp only
      split <;> simp

theorem mem_splitChar (sep : Char) :
    ∀ (l : List Char), ∀ part ∈ splitChar sep l, sep ∉ part := by
  intro l
  induction l with
  | nil =>
    intro part h
    simp only [splitChar, List.mem_singleton] at h
    subst h
    simp
  | cons c rest ih =>
    intro part hp
    simp only [splitChar] at hp
    obtain ⟨s, ss, hsp⟩ : ∃ s ss, splitChar sep rest = s :: ss := by
      cases h : splitChar sep rest with
      | nil => exact absurd h (splitChar_ne_nil sep rest)
      | cons s ss => exact ⟨s, ss, rfl⟩
    rw [hsp] at hp
    dsimp only at hp
    by_cases hc : c = sep
    · rw [if_pos hc] at hp
      rcases List.mem_cons.mp hp with h | h
      · subst h
        simp
      · exact ih part (by rw [hsp]; exact h)
    · rw [if_neg hc] at hp
      rcases List.mem_cons.mp hp with h | h
      · subst h
        intro hmem
        rcases List.mem_cons.mp hmem with h1 | h1
        · exact hc h1.symm
        · exact ih s (by rw [hsp]; exact List.mem_cons_self s ss) h1
      · exact ih part (by rw [hsp]; exact List.mem_cons_of_mem s h)

theorem headD_mem {α : Type} (ps : List α) (d : α) (h : ps ≠ []) : ps.headD d ∈ ps := by
  cases ps with
  | nil => exact absurd rfl h
  | cons x xs => simp

theorem keepSegment_eq_some (seg s : List Char) (h : keepSegment seg = some s) :
    s = cleanSegment seg ∧ s ≠ [] := by
  unfold keepSegment at h
  split at h
  · cases h
  · split at h
    · cases h
    · dsimp only at h
      split at h
      · cases h
      · next hne =>
        simp only [Option.some.injEq] at h
        refine ⟨h.symm, ?_⟩
        rw [h] at hne
        exact hne

theorem mem_joinSegs :
    ∀ (segs : List (List Char)), ∀ c ∈ joinSegs segs,
      c = '/' ∨ ∃ s ∈ segs, c ∈ s := by
  intro segs
  induction segs with
  | nil => intro c h; simp [joinSegs] at h
  | cons s rest ih =>
    intro c hc
    cases rest with
    | nil =>
      right
      exact ⟨s, List.mem_cons_self s [], by simpa [joinSegs] using hc⟩
    | cons t ts =>
      have hj : joinSegs (s :: t :: ts) = s ++ '/' :: joinSegs (t :: ts) := rfl
      rw [hj] at hc
      rcases List.mem_append.mp hc with h | h
      · right
        exact ⟨s, List.mem_cons_self s _, h⟩
      · rcases List.mem_cons.mp h with h | h
        · left
          exact h
        · rcases ih c h with h1 | ⟨u, hu, hcu⟩
          · left
            exact h1
          · right
            exact ⟨u, List.mem_cons_of_mem s hu, hcu⟩

theorem mem_sanitizeSegments (p : List Char) (s : List Char)
    (hs : s ∈ sanitizeSegments p) :
    s ≠ [] ∧ (∀ c ∈ s, isBadPathChar c = false ∧ isCtlChar c = false) := by
  unfold sanitizeSegments at hs
  rcases List.mem_filterMap.mp hs with ⟨seg, _, hkeep⟩
  obtain ⟨hseq, hne⟩ := keepSegment_eq_some seg s hkeep
  subst hseq
  exact ⟨hne, fun c hc => mem_cleanSegment_flags seg c hc⟩

theorem sanitizePath_no_qmark (p : String) : '?' ∉ (sanitizePath p).data := by
  intro h
  have hdata : (sanitizePath p).data = '/' :: joinSegs (sanitizeSegments p.data) := rfl
  rw [hdata] at h
  rcases List.mem_cons.mp h with h | h
  · exact absurd h (by decide)
  · rcases mem_joinSegs _ '?' h with h1 | ⟨s, hsmem, hcs⟩
    · exact absurd h1 (by decide)
    · have := (mem_sanitizeSegments p.data s hsmem).2 '?' hcs
      exact absurd this.1 (by decide)

theorem splitQ_path_no_qmark (src : String) : '?' ∉ (splitQ src).1.data := by
  unfold splitQ
  dsimp only
  exact mem_splitChar '?' src.data _
    (headD_mem _ [] (splitChar_ne_nil '?' src.data))

theorem splitQ_query_no_qmark (src : String) : '?' ∉ (splitQ src).2.data := by
  unfold splitQ
  dsimp only
  cases hd : (splitChar '?' src.data).drop 1 with
  | nil => simp
  | cons x xs =>
    simp only [List.headD_cons]
    refine mem_splitChar '?' src.data x ?_
    have : x ∈ (splitChar '?' src.data).drop 1 := by rw [hd]; simp
    exact List.drop_subset 1 _ this

theorem hexDigitChar_ne_qmark (n : Nat) (h : n < 16) : hexDigitChar n ≠ '?' := by
  interval_cases n <;> decide

theorem formEncodeL_no_qmark : ∀ l : List Char, '?' ∉ formEncodeL l := by
  intro l
  induction l with
  | nil => simp [formEncodeL]
  | cons c rest ih =>
    simp only [formEncodeL]
    intro hmem
    rcases List.mem_append.mp hmem with h | h
    · simp only [formEncodeChar] at h
      split at h
      · next hsafe =>
        simp only [List.mem_singleton] at h
        subst h
        exact absurd hsafe (by decide)
      · split at h
        · simp at h
        · simp only [List.mem_cons, List.not_mem_nil, or_false] at h
          rcases h with h | h | h
          · exact absurd h (by decide)
          · exact hexDigitChar_ne_qmark _ (Nat.mod_lt _ (by omega)) h.symm
          · exact hexDigitChar_ne_qmark _ (Nat.mod_lt _ (by omega)) h.symm
    · exact ih h

theorem formEncode_no_qmark (s : String) : '?' ∉ (formEncode s).data :=
  formEncodeL_no_qmark s.data

theorem countChar_strAppend (a b : String) (c : Char) :
    countChar c (a ++ b) = countChar c a + countChar c b := by
  unfold countChar
  rw [strData_append, List.count_append]

theorem countChar_eq_zero (s : String) (c : Char) (h : c ∉ s.data) :
    countChar c s = 0 := by
  unfold countChar
  exact List.count_eq_zero.mpr h

theorem strContainsChar_of_mem (s : String) (c : Char) (h : c ∈ s.data) :
    strContainsChar s c = true := by
  unfold strContainsChar
  rw [List.any_eq_true]
  exact ⟨c, h, by simp⟩

theorem strContainsChar_of_not_mem (s : String) (c : Char) (h : c ∉ s.data) :
    strContainsChar s c = false := by
  unfold strContainsChar
  rw [List.any_eq_false]
  intro a ha
  simp only [decide_eq_true_eq]
  intro he
  exact h (he ▸ ha)

theorem not_mem_strAppend (a b : String) (c : Char) (ha : c ∉ a.data)
    (hb : c ∉ b.data) : c ∉ (a ++ b).data := by
  rw [strData_append]
  intro h
  rcases List.mem_append.mp h with h | h
  · exact ha h
  · exact hb h

/-- `buildImageUrl` on a relative source with a valid path section. -/
theorem buildImageUrl_ok (b : SnapkitUrlBuilder) (src : String)
    (hrel : isCompleteUrl src = false)
    (hvalid : isValidPath (splitQ src).1 = true) :
    buildImageUrl b src =
      .ok (if (splitQ src).2 ≠ "" then
        b.baseUrl ++ sanitizePath (splitQ src).1 ++ "?" ++ (splitQ src).2
      else b.baseUrl ++ sanitizePath (splitQ src).1) := by
  unfold buildImageUrl
  rw [hrel]
  simp only [Bool.false_eq_true, if_false, hvalid, Bool.not_true]

/-! ## Claim C7 -/

/-- Claim C7: when a relative `src` already carries a query string and the
encoded transform string is nonempty, `buildTransformedUrl` merges them
with a single `&` and the result contains exactly one `?` (given a base
URL without `?`); when the encoded transform string is empty, the result
is exactly the bare `buildImageUrl` result (so no trailing `?` or `&` and
no `transform` parameter). -/
theorem c7_query_merge :
    (∀ (b : SnapkitUrlBuilder) (src : String) (t : ImageTransforms),
      isCompleteUrl src = false →
      countChar '?' b.baseUrl = 0 →
      isValidPath (splitQ src).1 = true →
      (splitQ src).2 ≠ "" →
      buildTransformString t ≠ "" →
      buildTransformedUrl b src t =
        .ok ((b.baseUrl ++ sanitizePath (splitQ src).1 ++ "?" ++ (splitQ src).2) ++
          "&" ++ "transform=" ++ formEncode (buildTransformString t)) ∧
      countChar '?'
        ((b.baseUrl ++ sanitizePath (splitQ src).1 ++ "?" ++ (splitQ src).2) ++
          "&" ++ "transform=" ++ formEncode (buildTransformString t)) = 1) ∧
    (∀ (b : SnapkitUrlBuilder) (src : String) (t : ImageTransforms),
      isCompleteUrl src = false →
      buildTransformString t = "" →
      buildTransformedUrl b src t = buildImageUrl b src) := by
  constructor
  · intro b src t hrel hbase hvalid hquery hts
    have himg := buildImageUrl_ok b src hrel hvalid
    rw [if_pos hquery] at himg
    constructor
    · unfold buildTransformedUrl
      rw [hrel]
      simp only [Bool.false_eq_true, if_false]
      rw [himg]
      dsimp only
      rw [if_neg hts]
      have hcontains : strContainsChar
          (b.baseUrl ++ sanitizePath (splitQ src).1 ++ "?" ++ (splitQ src).2) '?' = true := by
        apply strContainsChar_of_mem
        rw [strData_append]
        apply List.mem_append.mpr
        left
        rw [strData_append]
        apply List.mem_append.mpr
        right
        decide
      rw [hcontains, if_pos rfl]
    · rw [countChar_strAppend, countChar_strAppend, countChar_strAppend,
        countChar_strAppend, countChar_strAppend, countChar_strAppend]
      rw [hbase, countChar_eq_zero _ _ (sanitizePath_no_qmark _),
        countChar_eq_zero _ _ (splitQ_query_no_qmark src),
        countChar_eq_zero _ _ (formEncode_no_qmark _)]
      decide
  · intro b src t hrel hts
    unfold buildTransformedUrl
    rw [hrel]
    simp only [Bool.false_eq_true, if_false]
    cases himg : buildImageUrl b src with
    | error e => rfl
    | ok base =>
      dsimp only
      rw [if_pos hts]

/-- Witness for C7 at `img.jpg?v=1` with width 800, and at `img.jpg` with
no transforms. -/
theorem c7_query_merge_witness :
    (buildTransformedUrl acmeBuilder "img.jpg?v=1" { width := some 800 } =
      .ok ((acmeBuilder.baseUrl ++ sanitizePath (splitQ "img.jpg?v=1").1 ++ "?" ++
        (splitQ "img.jpg?v=1").2) ++ "&" ++ "transform=" ++
        formEncode (buildTransformString { width := some 800 })) ∧
      countChar '?'
        ((acmeBuilder.baseUrl ++ sanitizePath (splitQ "img.jpg?v=1").1 ++ "?" ++
          (splitQ "img.jpg?v=1").2) ++ "&" ++ "transform=" ++
          formEncode (buildTransformString { width := some 800 })) = 1) ∧
    buildTransformedUrl acmeBuilder "img.jpg" {} = buildImageUrl acmeBuilder "img.jpg" :=
  ⟨c7_query_merge.1 acmeBuilder "img.jpg?v=1" { width := some 800 }
      (by decide) (by decide) (by decide) (by decide) (by decide),
    c7_query_merge.2 acmeBuilder "img.jpg" {} (by decide) (by decide)⟩

/-! ## Claim C1 -/

/-- Claim C1, counterexample: the wire format does not carry literal `:`
and `,` inside the `transform` value — `URLSearchParams` percent-encodes
them, so `buildTransformedUrl` yields `transform=w%3A800` and not
`transform=w:800`. -/
theorem c1_wire_format_counterexample :
    buildTransformedUrl acmeBuilder "photos/cat.jpg" { width := some 800 } =
      .ok "https://acme-cdn.snapkit.studio/photos/cat.jpg?transform=w%3A800" ∧
    buildTransformedUrl acmeBuilder "photos/cat.jpg" { width := some 800 } ≠
      .ok "https://acme-cdn.snapkit.studio/photos/cat.jpg?transform=w:800" := by
  constructor
  · rfl
  · intro hcontra
    have h0 : buildTransformedUrl acmeBuilder "photos/cat.jpg" { width := some 800 } =
        .ok "https://acme-cdn.snapkit.studio/photos/cat.jpg?transform=w%3A800" := rfl
    rw [h0] at hcontra
    exact absurd (Except.ok.inj hcontra) (by decide)

set_option maxRecDepth 8192 in
/-- Claim C1 (amended): for a relative src path with no query string and a
nonempty transform set, `buildTransformedUrl` appends the single
`transform` query parameter whose value is the canonical token encoding
passed through the `application/x-www-form-urlencoded` serializer, which
percent-encodes `:` as `%3A` and `,` as `%2C` (the `-` of `extract`
survives); the spec's example value therefore reaches the wire as
`transform=w%3A800%2Ch%3A600%2C...`. -/
theorem c1_wire_format_encoded :
    (∀ (b : SnapkitUrlBuilder) (src : String) (t : ImageTransforms),
      isCompleteUrl src = false →
      countChar '?' b.baseUrl = 0 →
      isValidPath (splitQ src).1 = true →
      (splitQ src).2 = "" →
      buildTransformString t ≠ "" →
      buildTransformedUrl b src t =
        .ok (b.baseUrl ++ sanitizePath (splitQ src).1 ++ "?" ++ "transform=" ++
          formEncode (buildTransformString t))) ∧
    buildTransformedUrl acmeBuilder "photos/cat.jpg" specExampleTransforms =
      .ok "https://acme-cdn.snapkit.studio/photos/cat.jpg?transform=w%3A800%2Ch%3A600%2Cfit%3Acover%2Cdpr%3A2%2Cflip%2Cflop%2Cblur%3A5%2Cgrayscale%2Cextract%3A10-20-100-200%2Cformat%3Awebp%2Cquality%3A85" := by
  constructor
  · intro b src t hrel hbase hvalid hquery hts
    have himg := buildImageUrl_ok b src hrel hvalid
    rw [if_neg (not_not_intro hquery)] at himg
    unfold buildTransformedUrl
    rw [hrel]
    simp only [Bool.false_eq_true, if_false]
    rw [himg]
    dsimp only
    rw [if_neg hts]
    have hbase0 : '?' ∉ b.baseUrl.data := by
      have h := hbase
      unfold countChar at h
      exact List.count_eq_zero.mp h
    have hnc : strContainsChar (b.baseUrl ++ sanitizePath (splitQ src).1) '?' = false :=
      strContainsChar_of_not_mem _ _
        (not_mem_strAppend _ _ _ hbase0 (sanitizePath_no_qmark _))
    rw [hnc]
    simp only [Bool.false_eq_true, if_false]
  · rfl

/-- Witness for C1 at `photos/cat.jpg` with width 800. -/
theorem c1_wire_format_encoded_witness :
    buildTransformedUrl acmeBuilder "photos/cat.jpg" { width := some 800 } =
      .ok (acmeBuilder.baseUrl ++ sanitizePath (splitQ "photos/cat.jpg").1 ++ "?" ++
        "transform=" ++ formEncode (buildTransformString { width := some 800 })) :=
  c1_wire_format_encoded.1 acmeBuilder "photos/cat.jpg" { width := some 800 }
    (by decide) (by decide) (by decide) (by decide) (by decide)

/-! ## Helper lemmas for sanitization idempotence (Claim C4) -/

theorem mem_sanitizeSegments_no_slash (p : List Char) (s : List Char)
    (hs : s ∈ sanitizeSegments p) : '/' ∉ s := by
  unfold sanitizeSegments at hs
  rcases List.mem_filterMap.mp hs with ⟨seg, hseg, hkeep⟩
  obtain ⟨hseq, _⟩ := keepSegment_eq_some seg s hkeep
  subst hseq
  intro hmem
  exact mem_splitChar '/' _ seg hseg ((cleanSegment_sublist_self seg).subset hmem)

theorem collapse_append_no_slash : ∀ (s t : List Char), '/' ∉ s →
    collapseSlashes (s ++ t) = s ++ collapseSlashes t := by
  intro s
  induction s with
  | nil => intro t _; rfl
  | cons a s2 ih =>
    intro t h
    have ha : ¬ a = '/' := by
      intro e
      exact h (by rw [e]; exact List.mem_cons_self _ _)
    have hs : '/' ∉ s2 := fun m => h (List.mem_cons_of_mem a m)
    cases s2 with
    | nil =>
      cases t with
      | nil => rfl
      | cons x xs =>
        show collapseSlashes (a :: x :: xs) = a :: collapseSlashes (x :: xs)
        simp only [collapseSlashes]
        rw [if_neg (by simp [ha])]
    | cons b s3 =>
      have hstep : collapseSlashes ((a :: b :: s3) ++ t) =
          a :: collapseSlashes ((b :: s3) ++ t) := by
        show collapseSlashes (a :: b :: (s3 ++ t)) =
          a :: collapseSlashes (b :: (s3 ++ t))
        simp only [collapseSlashes]
        rw [if_neg (by simp [ha])]
      rw [hstep, ih t hs]
      rfl

theorem collapse_no_slash (s : List Char) (h : '/' ∉ s) : collapseSlashes s = s := by
  have := collapse_append_no_slash s [] h
  simpa [collapseSlashes] using this

theorem collapse_slash_join : ∀ (segs : List (List Char)),
    (∀ s ∈ segs, '/' ∉ s ∧ s ≠ []) →
    collapseSlashes ('/' :: joinSegs segs) = '/' :: joinSegs segs := by
  intro segs
  induction segs with
  | nil => intro _; rfl
  | cons s rest ih =>
    intro h
    obtain ⟨hs, hne⟩ := h s (List.mem_cons_self _ _)
    cases s with
    | nil => exact absurd rfl hne
    | cons x xs =>
      have hx : ¬ x = '/' := by
        intro e
        exact hs (by rw [e]; exact List.mem_cons_self _ _)
      cases rest with
      | nil =>
        show collapseSlashes ('/' :: x :: xs) = '/' :: x :: xs
        simp only [collapseSlashes]
        rw [if_neg (by simp [hx]), collapse_no_slash (x :: xs) hs]
      | cons t ts =>
        show collapseSlashes ('/' :: ((x :: xs) ++ '/' :: joinSegs (t :: ts))) =
          '/' :: ((x :: xs) ++ '/' :: joinSegs (t :: ts))
        have hstep : collapseSlashes ('/' :: ((x :: xs) ++ '/' :: joinSegs (t :: ts))) =
            '/' :: collapseSlashes ((x :: xs) ++ '/' :: joinSegs (t :: ts)) := by
          show collapseSlashes ('/' :: x :: (xs ++ '/' :: joinSegs (t :: ts))) =
            '/' :: collapseSlashes (x :: (xs ++ '/' :: joinSegs (t :: ts)))
          simp only [collapseSlashes]
          rw [if_neg (by simp [hx])]
        rw [hstep, collapse_append_no_slash (x :: xs) _ hs,
          ih (fun u hu => h u (List.mem_cons_of_mem _ hu))]

theorem splitChar_sep_cons (sep : Char) (l : List Char) :
    splitChar sep (sep :: l) = [] :: splitChar sep l := by
  simp only [splitChar]
  obtain ⟨s, ss, h⟩ : ∃ s ss, splitChar sep l = s :: ss := by
    cases h : splitChar sep l with
    | nil => exact absurd h (splitChar_ne_nil sep l)
    | cons s ss => exact ⟨s, ss, rfl⟩
  rw [h]
  simp

theorem splitChar_not_mem (sep : Char) : ∀ (l : List Char), sep ∉ l →
    splitChar sep l = [l] := by
  intro l
  induction l with
  | nil => intro _; rfl
  | cons c rest ih =>
    intro h
    have hc : ¬ c = sep := by
      intro e
      exact h (by rw [e]; exact List.mem_cons_self _ _)
    have hr : sep ∉ rest := fun m => h (List.mem_cons_of_mem c m)
    simp only [splitChar, ih hr]
    simp [hc]

theorem splitChar_seam (sep : Char) : ∀ (s r : List Char), sep ∉ s →
    splitChar sep (s ++ sep :: r) = s :: splitChar sep r := by
  intro s
  induction s with
  | nil =>
    intro r _
    simpa using splitChar_sep_cons sep r
  | cons a s2 ih =>
    intro r h
    have ha : ¬ a = sep := by
      intro e
      exact h (by rw [e]; exact List.mem_cons_self _ _)
    have hs : sep ∉ s2 := fun m => h (List.mem_cons_of_mem a m)
    show splitChar sep (a :: (s2 ++ sep :: r)) = (a :: s2) :: splitChar sep r
    simp only [splitChar, ih r hs]
    simp [ha]

theorem splitChar_joinSegs : ∀ (segs : List (List Char)),
    (∀ s ∈ segs, '/' ∉ s) → segs ≠ [] →
    splitChar '/' (joinSegs segs) = segs := by
  intro segs
  induction segs with
  | nil => intro _ h; exact absurd rfl h
  | cons s rest ih =>
    intro hmem _
    cases rest with
    | nil =>
      show splitChar '/' (joinSegs [s]) = [s]
      exact splitChar_not_mem '/' s (hmem s (List.mem_cons_self _ _))
    | cons t ts =>
      have hj : joinSegs (s :: t :: ts) = s ++ '/' :: joinSegs (t :: ts) := rfl
      rw [hj, splitChar_seam '/' s _ (hmem s (List.mem_cons_self _ _)),
        ih (fun u hu => hmem u (List.mem_cons_of_mem s hu)) (by simp)]

theorem filterMap_keep_id : ∀ (segs : List (List Char)),
    (∀ s ∈ segs, keepSegment s = some s) →
    segs.filterMap keepSegment = segs := by
  intro segs
  induction segs with
  | nil => intro _; rfl
  | cons s rest ih =>
    intro h
    rw [List.filterMap_cons, h s (List.mem_cons_self _ _),
      ih (fun u hu => h u (List.mem_cons_of_mem s hu))]

theorem keepSegment_self (s : List Char) (h1 : s ≠ []) (h2 : s ≠ ".".data)
    (h3 : s ≠ "..".data) (hclean : cleanSegment s = s) :
    keepSegment s = some s := by
  unfold keepSegment
  rw [if_neg h3, if_neg (by
    intro hor
    rcases hor with h | h
    · exact h2 h
    · exact h1 h)]
  dsimp only
  rw [hclean, if_neg h1]

/-! ## Claim C4 -/

/-- Claim C4, counterexample: `sanitizePath` is not idempotent.
Character stripping can create a fresh `..` segment (`"..?"` sanitizes to
`"/.."`, which a second pass collapses to `"/"`), and the event-handler
replacement can create a fresh match (`"ona onx==tail"` sanitizes to
`"/ona =tail"`, which a second pass reduces to `"/tail"`). -/
theorem c4_sanitize_not_idempotent_counterexample :
    sanitizePath "..?" = "/.." ∧
    sanitizePath (sanitizePath "..?") = "/" ∧
    sanitizePath (sanitizePath "..?") ≠ sanitizePath "..?" ∧
    sanitizePath "ona onx==tail" = "/ona =tail" ∧
    sanitizePath (sanitizePath "ona onx==tail") = "/tail" ∧
    sanitizePath (sanitizePath "ona onx==tail") ≠ sanitizePath "ona onx==tail" := by
  refine ⟨by decide, by decide, by decide, by decide, by decide, by decide⟩

/-- Claim C4 (amended): `sanitizePath` is idempotent on every input whose
kept segments the cleaning chain leaves unchanged and are not `.` or `..`
— in particular on all ordinary paths; in general idempotence fails,
because stripping characters can create fresh `.`/`..` segments and the
event-handler replacement can create fresh matches of its own pattern. -/
theorem c4_sanitize_idempotent_amended :
    ∀ p : String,
      (∀ s ∈ sanitizeSegments p.data,
        cleanSegment s = s ∧ s ≠ ".".data ∧ s ≠ "..".data) →
      sanitizePath (sanitizePath p) = sanitizePath p := by
  intro p hyp
  have hmem1 := mem_sanitizeSegments p.data
  have hmem2 := mem_sanitizeSegments_no_slash p.data
  have key : sanitizeSegments ('/' :: joinSegs (sanitizeSegments p.data)) =
      sanitizeSegments p.data := by
    generalize hgen : sanitizeSegments p.data = segs at hyp hmem1 hmem2
    by_cases hnil : segs = []
    · rw [hnil]
      decide
    · have hprops : ∀ s ∈ segs, '/' ∉ s ∧ s ≠ [] := by
        intro s hs
        exact ⟨hmem2 s hs, (hmem1 s hs).1⟩
      unfold sanitizeSegments
      have hfilter : ('/' :: joinSegs segs).filter
          (fun c => c ≠ '\x00') = '/' :: joinSegs segs := by
        rw [List.filter_eq_self]
        intro c hc
        simp only [ne_eq, decide_not, Bool.not_eq_eq_eq_not, Bool.not_true,
          decide_eq_false_iff_not]
        rcases List.mem_cons.mp hc with h | h
        · rw [h]
          decide
        · rcases mem_joinSegs _ c h with h1 | ⟨s, hsm, hcs⟩
          · rw [h1]
            decide
          · have hfl := (hmem1 s hsm).2 c hcs
            intro he
            rw [he] at hfl
            exact absurd hfl.2 (by decide)
      rw [hfilter, collapse_slash_join _ hprops, splitChar_sep_cons,
        splitChar_joinSegs _ (fun s hs => (hprops s hs).1) hnil,
        List.filterMap_cons]
      have hkeepnil : keepSegment [] = none := by decide
      rw [hkeepnil]
      exact filterMap_keep_id _ (fun s hs =>
        keepSegment_self s ((hprops s hs).2) ((hyp s hs).2.1) ((hyp s hs).2.2)
          ((hyp s hs).1))
  show String.mk ('/' :: joinSegs (sanitizeSegments
      (String.mk ('/' :: joinSegs (sanitizeSegments p.data))).data)) =
      String.mk ('/' :: joinSegs (sanitizeSegments p.data))
  rw [show (String.mk ('/' :: joinSegs (sanitizeSegments p.data))).data =
    '/' :: joinSegs (sanitizeSegments p.data) from rfl, key]

/-- Witness for C4 at an ordinary path. -/
theorem c4_sanitize_idempotent_amended_witness :
    (∀ s ∈ sanitizeSegments ("photos/cats.jpg" : String).data,
      cleanSegment s = s ∧ s ≠ ".".data ∧ s ≠ "..".data) ∧
    sanitizePath (sanitizePath "photos/cats.jpg") = sanitizePath "photos/cats.jpg" :=
  ⟨by decide, c4_sanitize_idempotent_amended "photos/cats.jpg" (by decide)⟩
